import Mathlib

/-!
# chfmt: a verification development

Shallow embedding of `cmd/chfmt.go` (package `cmd` of yosukei3108/chfmt).

Conventions of the embedding
* A Go `string` is a `List Char`.  Every scan the program performs looks for an
  ASCII byte (`.`, `/`, `-`, `=`), so scanning code points and scanning bytes
  agree on well-formed UTF-8 text.
* `type Format string` is an arbitrary string, exactly as in the source.
* Library functions the program calls (`filepath.Ext`, `strings.ToLower`, the
  `flag` package, `filepath.WalkDir`, the `os` and `image` packages) are
  embedded by their documented behaviour; the parts of them that are tables or
  depend on the machine (the Unicode lower-case table, the decoders, the file
  system failures) are parameters.
-/

namespace Chfmt

/-! ## Strings -/

/-- A Go string, as a sequence of code points. -/
abbrev GoString := List Char

/-- The type `Format` of the source: `type Format string`. -/
abbrev Format := GoString

/-- The Unicode lower-case mapping for code points outside ASCII
(`unicode.ToLower` restricted to `r > unicode.MaxASCII`); a table of the Go
runtime, taken as a parameter. -/
abbrev LowerTable := Char → Char

/-- `os.IsPathSeparator` on Unix: the only separator is the slash. -/
def IsPathSeparator (c : Char) : Bool := c == '/'

/-- The loop of `filepath.Ext`:
`for i := len(path) - 1; i >= 0 && !os.IsPathSeparator(path[i]); i--`,
with `n = i + 1`. -/
def extLoop (path : GoString) : Nat → GoString
  | 0 => []
  | i + 1 =>
    if IsPathSeparator (path.getD i ' ') then []
    else if path.getD i ' ' = '.' then path.drop i
    else extLoop path i

/-- `filepath.Ext`: the suffix beginning at the final dot in the final element
of `path`; empty if there is no dot. -/
def Ext (path : GoString) : GoString := extLoop path path.length

/-- `unicode.ToLower`: ASCII letters are shifted, other ASCII code points are
kept, and everything else goes through the table. -/
def runeToLower (tbl : LowerTable) (c : Char) : Char :=
  if c.toNat < 128 then (if 'A' ≤ c ∧ c ≤ 'Z' then Char.ofNat (c.toNat + 32) else c)
  else tbl c

/-- `strings.ToLower`.  An all-ASCII string takes the fast path (bytes `A`..`Z`
are shifted by `'a' - 'A'`), any other string is mapped with `unicode.ToLower`. -/
def ToLower (tbl : LowerTable) (s : GoString) : GoString :=
  if s.all (fun c => decide (c.toNat < 128)) then
    s.map (fun c => if 'A' ≤ c ∧ c ≤ 'Z' then Char.ofNat (c.toNat + 32) else c)
  else s.map (runeToLower tbl)

/-! ## Format names -/

def fmtJpeg : Format := ['j', 'p', 'e', 'g']
def fmtPng : Format := ['p', 'n', 'g']
def fmtGif : Format := ['g', 'i', 'f']
def fmtUnknown : Format := ['u', 'n', 'k', 'n', 'o', 'w', 'n']

/-- `GetFormatFromExtention` of the source. -/
def GetFormatFromExtention (tbl : LowerTable) (path : GoString) : Format :=
  let ext := Ext path
  let low := ToLower tbl ext
  if low = ['.', 'j', 'p', 'g'] ∨ low = ['.', 'j', 'p', 'e', 'g'] then fmtJpeg
  else if low = ['.', 'p', 'n', 'g'] then fmtPng
  else if low = ['.', 'g', 'i', 'f'] then fmtGif
  else fmtUnknown

/-- `ChangeExt` of the source:
`i := len(path) - len(ext); return path[:i] + "." + string(f)`. -/
def ChangeExt (path : GoString) (f : Format) : GoString :=
  if f = fmtUnknown then path
  else
    let ext := Ext path
    let i := path.length - ext.length
    path.take i ++ ['.'] ++ f

/-! ## The constant block

```
const (
	Version string = "v0.0.1"

	ExitCodeOK             = 0
	ExitCodeParseFlagError = 10 + iota
	ExitCodeTooManyArgs
	ExitCodeInvalidExtensionError
	ExitCodeFailedToGetCd
	ExitCodeFailedToExec
)
```
Inside a parenthesised `const` declaration `iota` is the index of the
ConstSpec in the declaration, counted from zero, and a ConstSpec without an
expression repeats the expression of the preceding one. -/

/-- The constant expressions that occur in the block. -/
inductive ConstExpr
  | num (n : Nat)
  | text (s : String)
  | iota
  | add (a b : ConstExpr)

/-- The value of a constant. -/
inductive ConstValue
  | int (n : Nat)
  | str (s : String)
  deriving DecidableEq, Repr

/-- One ConstSpec: a name, and the expression when one is written. -/
structure ConstSpec where
  name : String
  expr : Option ConstExpr

/-- Integer value of an expression at a given value of `iota`
(a string operand counts as absent). -/
def ConstExpr.evalInt (i : Nat) : ConstExpr → Nat
  | .num n => n
  | .text _ => 0
  | .iota => i
  | .add a b => a.evalInt i + b.evalInt i

/-- Value of an expression at a given value of `iota`. -/
def ConstExpr.eval (i : Nat) : ConstExpr → ConstValue
  | .text s => .str s
  | e => .int (e.evalInt i)

/-- Evaluation of a const declaration: `i` is the index of the next ConstSpec,
`prev` the expression an expressionless ConstSpec repeats. -/
def evalConstDecl : List ConstSpec → Nat → Option ConstExpr → List (String × ConstValue)
  | [], _, _ => []
  | c :: cs, i, prev =>
    match (match c.expr with | some e => some e | none => prev) with
    | some e => (c.name, e.eval i) :: evalConstDecl cs (i + 1) (some e)
    | none => evalConstDecl cs (i + 1) none

/-- The const declaration of `chfmt.go`, lines 21 to 30. -/
def constDecl : List ConstSpec :=
  [ ⟨"Version", some (.text "v0.0.1")⟩,
    ⟨"ExitCodeOK", some (.num 0)⟩,
    ⟨"ExitCodeParseFlagError", some (.add (.num 10) .iota)⟩,
    ⟨"ExitCodeTooManyArgs", none⟩,
    ⟨"ExitCodeInvalidExtensionError", none⟩,
    ⟨"ExitCodeFailedToGetCd", none⟩,
    ⟨"ExitCodeFailedToExec", none⟩ ]

/-- The integer constant of the declaration with the given name. -/
def intConst (name : String) : Nat :=
  match (evalConstDecl constDecl 0 none).lookup name with
  | some (.int n) => n
  | _ => 0

/-- The string constant of the declaration with the given name. -/
def strConst (name : String) : GoString :=
  match (evalConstDecl constDecl 0 none).lookup name with
  | some (.str s) => s.toList
  | _ => []

def Version : GoString := strConst "Version"
def ExitCodeOK : Nat := intConst "ExitCodeOK"
def ExitCodeParseFlagError : Nat := intConst "ExitCodeParseFlagError"
def ExitCodeTooManyArgs : Nat := intConst "ExitCodeTooManyArgs"
def ExitCodeInvalidExtensionError : Nat := intConst "ExitCodeInvalidExtensionError"
def ExitCodeFailedToGetCd : Nat := intConst "ExitCodeFailedToGetCd"
def ExitCodeFailedToExec : Nat := intConst "ExitCodeFailedToExec"

/-! ## The flag set of `Run`

`flag.NewFlagSet("chfmt", flag.ContinueOnError)` with the three flags
`version` (bool, default false), `src` (string, default "jpeg") and `dst`
(string, default "png"). -/

/-- The variables bound to the flags (`flagVersion`, `flagSrcFormat`,
`flagDstFormat`). -/
structure Flags where
  version : Bool
  src : GoString
  dst : GoString
  deriving DecidableEq

/-- The values before parsing: the defaults given to `BoolVar` and `StringVar`. -/
def Flags.defaults : Flags := ⟨false, fmtJpeg, fmtPng⟩

/-- The errors `FlagSet.Parse` returns. -/
inductive FlagError
  | malformed (arg : GoString)
  | help
  | notDefined (name : GoString)
  | invalidBool (value name : GoString)
  | needsArgument (name : GoString)
  deriving DecidableEq

/-- The flags registered in the set (`f.formal`). -/
inductive FlagKind
  | version
  | src
  | dst
  deriving DecidableEq

/-- Lookup in `f.formal`. -/
def formal (name : GoString) : Option FlagKind :=
  if name = "version".toList then some .version
  else if name = "src".toList then some .src
  else if name = "dst".toList then some .dst
  else none

/-- `strconv.ParseBool`, which the bool flag uses to read an explicit value. -/
def parseBool (s : GoString) : Option Bool :=
  if s ∈ ["1", "t", "T", "TRUE", "true", "True"].map String.toList then some true
  else if s ∈ ["0", "f", "F", "FALSE", "false", "False"].map String.toList then some false
  else none

/-- The loop `for i := 1; i < len(name); i++ { if name[i] == '=' ... }` of
`parseOne`: the name before the first `=` that is not the first character, and
the value after it when there is one. -/
def splitNameValue (name : GoString) : GoString × Option GoString :=
  match name with
  | [] => ([], none)
  | c :: rest =>
    match rest.span (fun x => x != '=') with
    | (_, []) => (name, none)
    | (a, _ :: v) => (c :: a, some v)

/-- What is left of an argument `s` that starts with `-` once the one or two
minus signs are taken off; `none` when `s` is exactly `--`. -/
def stripMinuses (s : GoString) : Option GoString :=
  match s with
  | '-' :: '-' :: [] => none
  | '-' :: '-' :: name => some name
  | _ :: name => some name
  | [] => some []

/-- `FlagSet.Parse` (the loop over `parseOne`) for the flag set of `Run`.
The result is the flag variables and the remaining, positional arguments
(`f.args`), or the error of the first argument that fails. -/
def Parse (fl : Flags) : List GoString → Except FlagError (Flags × List GoString)
  | [] => .ok (fl, [])
  | s :: rest =>
    if s.length < 2 ∨ s.head? ≠ some '-' then .ok (fl, s :: rest)
    else
      match stripMinuses s with
      | none => .ok (fl, rest)
      | some name =>
        if name.length = 0 ∨ name.head? = some '-' ∨ name.head? = some '=' then
          .error (.malformed s)
        else
          match splitNameValue name with
          | (name, value) =>
            match formal name with
            | none =>
              if name = "help".toList ∨ name = "h".toList then .error .help
              else .error (.notDefined name)
            | some .version =>
              match value with
              | some v =>
                match parseBool v with
                | some b => Parse { fl with version := b } rest
                | none => .error (.invalidBool v name)
              | none => Parse { fl with version := true } rest
            | some .src =>
              match value with
              | some v => Parse { fl with src := v } rest
              | none =>
                match rest with
                | v :: rest => Parse { fl with src := v } rest
                | [] => .error (.needsArgument name)
            | some .dst =>
              match value with
              | some v => Parse { fl with dst := v } rest
              | none =>
                match rest with
                | v :: rest => Parse { fl with dst := v } rest
                | [] => .error (.needsArgument name)

/-! ## The world the program runs in -/

/-- File contents. -/
abbrev Bytes := List Nat

/-- Error values.  `errFormat` is `image.ErrFormat`, `notExist` the error of
opening a path with no file, every other error is identified by a number. -/
inductive Err
  | errFormat
  | notExist
  | other (code : Nat)
  deriving DecidableEq

/-- What the program does to the outside, in order. -/
inductive Event
  | changeFormat (root : GoString) (src dst : Format)
  | openSrc (path : GoString)
  | closeSrc (path : GoString)
  | createDst (path : GoString)
  | writeDst (path : GoString) (data : Bytes)
  | closeDst (path : GoString)
  deriving DecidableEq

/-- The files.  Two names can denote one file (a hard link, a symbolic link):
`links` gives, for such a name, the name under which the content of its file
is kept; every other name denotes a file of its own. -/
structure Files where
  links : List (GoString × GoString)
  content : List (GoString × Bytes)
  deriving DecidableEq

/-- The name under which the content of the file that `path` denotes is kept. -/
def Files.resolve (fs : Files) (path : GoString) : GoString :=
  (fs.links.lookup path).getD path

/-- The content of the file a path denotes. -/
def Files.read (fs : Files) (path : GoString) : Option Bytes :=
  fs.content.lookup (fs.resolve path)

/-- Store `data` in the file `path` denotes, replacing what was there; the
file is made when there is none. -/
def Files.write (fs : Files) (path : GoString) (data : Bytes) : Files :=
  { fs with
    content := (fs.resolve path, data) :: fs.content.filter (fun e => e.1 != fs.resolve path) }

/-- The file system together with the log of what was done. -/
structure World where
  files : Files
  trace : List Event
  deriving DecidableEq

/-- Append an event to the log. -/
def World.log (w : World) (e : Event) : World := { w with trace := w.trace ++ [e] }

/-- One call of the walk function by `filepath.WalkDir`: the path, whether the
entry is a directory, and the error of reading it when there is one. -/
structure Visit where
  path : GoString
  isDir : Bool
  err : Option Err
  deriving DecidableEq

/-- The parts of the machine and of the libraries the program depends on. -/
structure Env (Image : Type) where
  /-- the Unicode table behind `strings.ToLower` -/
  lowerTable : LowerTable
  /-- `os.Getwd` -/
  getwd : Except Err GoString
  /-- the calls `filepath.WalkDir` makes for a root, in its order -/
  visits : GoString → List Visit
  /-- the failure of `os.Open`, when it fails for another reason than absence -/
  openErr : GoString → Option Err
  /-- `image.Decode` on the content of a file -/
  imageDecode : Bytes → Except Err (Image × GoString)
  /-- the failure of `os.Create` -/
  createErr : GoString → Option Err
  /-- `png.Encode`: what it wrote, and its error -/
  pngEncode : Image → Bytes × Option Err
  /-- `jpeg.Encode` -/
  jpegEncode : Image → Bytes × Option Err
  /-- `gif.Encode` -/
  gifEncode : Image → Bytes × Option Err
  /-- the failure of `Close` on a destination file -/
  closeErr : GoString → Option Err
  /-- the text `%v` prints for an error -/
  errText : Err → GoString

section Program

variable {Image : Type}

/-- `os.Open`, with the content the handle will deliver. -/
def osOpen (env : Env Image) (w : World) (path : GoString) : Except Err Bytes × World :=
  match env.openErr path with
  | some e => (.error e, w)
  | none =>
    match w.files.read path with
    | none => (.error .notExist, w)
    | some b => (.ok b, w.log (.openSrc path))

/-- `os.Create`: the file the name denotes is created, or truncated when it
exists. -/
def osCreate (env : Env Image) (w : World) (path : GoString) : Option Err × World :=
  match env.createErr path with
  | some e => (some e, w)
  | none => (none, { files := w.files.write path [], trace := w.trace ++ [.createDst path] })

/-- `Decode` of the source. -/
def Decode (env : Env Image) (r : Bytes) : Except Err (Image × Format) :=
  match env.imageDecode r with
  | .error e => .error e
  | .ok (img, format) =>
    if format = fmtPng then .ok (img, fmtPng)
    else if format = fmtJpeg then .ok (img, fmtJpeg)
    else if format = fmtGif then .ok (img, fmtGif)
    else .error .errFormat

/-- Writing the output of an encoder to the open destination file. -/
def writeOut (w : World) (path : GoString) (r : Bytes × Option Err) : Option Err × World :=
  (r.2, { files := w.files.write path r.1, trace := w.trace ++ [.writeDst path r.1] })

/-- `Encode` of the source, writing to the destination file at `path`. -/
def Encode (env : Env Image) (w : World) (path : GoString) (img : Image) (f : Format) :
    Option Err × World :=
  if f = fmtPng then writeOut w path (env.pngEncode img)
  else if f = fmtJpeg then writeOut w path (env.jpegEncode img)
  else if f = fmtGif then writeOut w path (env.gifEncode img)
  else (some .errFormat, w)

/-- The deferred `sf.Close()`: runs on every return after the source was
opened; its error is dropped. -/
def deferCloseSrc (path : GoString) (r : Option Err × World) : Option Err × World :=
  (r.1, r.2.log (.closeSrc path))

/-- The deferred closure
`if err := df.Close(); rerr == nil && err != nil { rerr = err }`:
runs on every return after the destination was created. -/
def deferCloseDst (env : Env Image) (dstPath : GoString) (r : Option Err × World) :
    Option Err × World :=
  let err := env.closeErr dstPath
  let w := r.2.log (.closeDst dstPath)
  if r.1 = none ∧ err ≠ none then (err, w) else (r.1, w)

/-- The function literal `walkdirfunc` of `ChangeFormat`: the step performed
for one entry.  The result is `rerr` and the world afterwards. -/
def walkdirfunc (env : Env Image) (src dst : Format) (v : Visit) (w : World) :
    Option Err × World :=
  match v.err with
  | some err => (some err, w)
  | none =>
    if v.isDir then (none, w)
    else
      let ext := GetFormatFromExtention env.lowerTable v.path
      if ext ≠ src then (none, w)
      else
        match osOpen env w v.path with
        | (.error err, w) => (some err, w)
        | (.ok sf, w) =>
          deferCloseSrc v.path <|
            match Decode env sf with
            | .error err => (some err, w)
            | .ok (img, format) =>
              if format ≠ src then (none, w)
              else
                let dstPath := ChangeExt v.path dst
                match osCreate env w dstPath with
                | (some err, w) => (some err, w)
                | (none, w) =>
                  deferCloseDst env dstPath <|
                    match Encode env w dstPath img dst with
                    | (some err, w) => (some err, w)
                    | (none, w) => (none, w)

/-- `filepath.WalkDir` over the calls it makes: the first error the function
returns stops the walk and is the result.  (The sentinel errors `fs.SkipDir`
and `fs.SkipAll` are not values of `Err`: the walk function of `ChangeFormat`
only hands on errors of `WalkDir`, `os.Open`, `image.Decode`, `os.Create`, the
encoders and `Close`.) -/
def walkDir (fn : Visit → World → Option Err × World) : List Visit → World → Option Err × World
  | [], w => (none, w)
  | v :: vs, w =>
    match fn v w with
    | (some err, w) => (some err, w)
    | (none, w) => walkDir fn vs w

/-- `ChangeFormat` of the source. -/
def ChangeFormat (env : Env Image) (root : GoString) (src dst : Format) (w : World) :
    Option Err × World :=
  walkDir (walkdirfunc env src dst) (env.visits root) (w.log (.changeFormat root src dst))

/-- What a call of `Run` leaves behind. -/
structure RunResult where
  /-- the value returned -/
  code : Nat
  /-- what `Run` printed to `c.OutStream` -/
  OutStream : GoString
  /-- what `Run` printed to `c.ErrStream` -/
  ErrStream : GoString
  /-- the error whose message and usage text the flag package printed to
  `ErrStream`, when parsing failed -/
  flagError : Option FlagError
  /-- the world afterwards -/
  world : World
  deriving DecidableEq

/-- `CLI.Run` of the source.  `none` is the run-time panic of `args[1:]` on an
empty `args`. -/
def Run (env : Env Image) (args : List GoString) (w : World) : Option RunResult :=
  match args with
  | [] => none
  | _ :: rest =>
    match Parse Flags.defaults rest with
    | .error e => some ⟨ExitCodeParseFlagError, [], [], some e, w⟩
    | .ok (fl, _) =>
      if args.length > 3 then
        some ⟨ExitCodeTooManyArgs, [], "Error: Too many arguments\n".toList, none, w⟩
      else if fl.version then
        some ⟨ExitCodeOK, "chfmt version ".toList ++ Version ++ "\n".toList, [], none, w⟩
      else
        let out := "Change formats...\n".toList
        match env.getwd with
        | .error _ => some ⟨ExitCodeFailedToGetCd, out, [], none, w⟩
        | .ok currentDir =>
          match ChangeFormat env currentDir fl.src fl.dst w with
          | (some err, w) =>
            some ⟨ExitCodeFailedToExec, out, "Error: ".toList ++ env.errText err ++ "\n".toList,
              none, w⟩
          | (none, w) => some ⟨ExitCodeOK, out, [], none, w⟩

end Program

/-! ## Notions the specification speaks of -/

/-- The scan of `filepath.Ext` on the reversed text before position `i`, with
the text from `i` on in `acc`. -/
def extScan : GoString → GoString → GoString
  | [], _ => []
  | c :: r, acc =>
    if IsPathSeparator c then []
    else if c = '.' then c :: acc
    else extScan r (c :: acc)

/-- Two texts are equal when letter case is ignored. -/
def eqIgnoreCase (tbl : LowerTable) (a b : GoString) : Prop :=
  a.map (runeToLower tbl) = b.map (runeToLower tbl)

/-- The final path element: what follows the last separator. -/
def finalElement (path : GoString) : GoString :=
  (path.reverse.takeWhile (fun c => !IsPathSeparator c)).reverse

/-- The directory part: the path up to and including the last separator
(the first component of `filepath.Split`). -/
def dirPart (path : GoString) : GoString :=
  (path.reverse.dropWhile (fun c => !IsPathSeparator c)).reverse

/-- The extension in the words of the specification: the suffix starting at
the last dot of the final path element, empty if there is none. -/
def extensionOf (path : GoString) : GoString :=
  if '.' ∈ finalElement path then
    '.' :: ((finalElement path).reverse.takeWhile (fun c => c != '.')).reverse
  else []

/-- The path with its extension removed. -/
def withoutExtension (path : GoString) : GoString :=
  path.take (path.length - (extensionOf path).length)

/-- A machine for the examples: decoding the content `[1]` gives a JPEG image,
`[2]` a PNG image, `[3]` a GIF image; the PNG encoder writes `[2, 2]`; nothing
fails. -/
def exampleEnv : Env Nat where
  lowerTable := id
  getwd := .ok ['/', 'w']
  visits := fun _ => []
  openErr := fun _ => none
  imageDecode := fun b =>
    if b = [1] then .ok (0, fmtJpeg)
    else if b = [2] then .ok (0, fmtPng)
    else if b = [3] then .ok (0, fmtGif)
    else .error .errFormat
  createErr := fun _ => none
  pngEncode := fun _ => ([2, 2], none)
  jpegEncode := fun _ => ([1, 1], none)
  gifEncode := fun _ => ([3, 3], none)
  closeErr := fun _ => none
  errText := fun _ => ['e', 'r', 'r']

/-- The machine of the examples, except that the PNG encoder fails with error 7
after writing `[2]`, and closing a destination fails with error 9. -/
def failingEnv : Env Nat :=
  { exampleEnv with
    pngEncode := fun _ => ([2], some (.other 7))
    closeErr := fun _ => some (.other 9) }

/-! ## Lemmas on the string functions -/

theorem extLoop_append (r acc : GoString) :
    extLoop (r.reverse ++ acc) r.length = extScan r acc := by
  induction r generalizing acc with
  | nil => rfl
  | cons c r ih =>
    have hrw : (c :: r).reverse ++ acc = r.reverse ++ (c :: acc) := by simp
    have hget : ((r.reverse ++ (c :: acc)).getD r.length ' ') = c := by
      rw [List.getD_eq_getElem?_getD, List.getElem?_append_right (by simp)]
      simp
    have hdrop : (r.reverse ++ (c :: acc)).drop r.length = c :: acc := by
      rw [List.drop_append_of_le_length (by simp)]
      simp [List.drop_eq_nil_of_le]
    rw [hrw]
    simp only [List.length_cons, extLoop, extScan, hget, hdrop]
    rw [ih]

theorem Ext_eq_scan (path : GoString) : Ext path = extScan path.reverse [] := by
  have := extLoop_append path.reverse []
  simpa [Ext] using this

theorem extScan_eq (r acc : GoString) :
    extScan r acc =
      if '.' ∈ r.takeWhile (fun c => !IsPathSeparator c) then
        '.' :: ((r.takeWhile (fun c => !IsPathSeparator c)).takeWhile (fun c => c != '.')).reverse
          ++ acc
      else [] := by
  induction r generalizing acc with
  | nil => simp [extScan]
  | cons c r ih =>
    by_cases hs : IsPathSeparator c = true
    · simp [extScan, hs]
    · by_cases hd : c = '.'
      · subst hd
        simp [extScan, hs]
      · have hd2 : ¬ ('.' = c) := fun h => hd h.symm
        simp only [extScan, hs, hd, if_false, ih, List.takeWhile_cons, Bool.not_eq_true,
          Bool.not_true, Bool.false_eq_true, List.mem_cons, hd2, false_or]
        simp [hs, hd, hd2]

theorem Ext_eq_extensionOf (path : GoString) : Ext path = extensionOf path := by
  rw [Ext_eq_scan, extScan_eq]
  simp [extensionOf, finalElement]

theorem extScan_no_separator (r acc : GoString) (hacc : ∀ c ∈ acc, IsPathSeparator c = false) :
    ∀ c ∈ extScan r acc, IsPathSeparator c = false := by
  induction r generalizing acc with
  | nil => simp [extScan]
  | cons c r ih =>
    by_cases hs : IsPathSeparator c = true
    · simp [extScan, hs]
    · have hs2 : IsPathSeparator c = false := by simpa using hs
      have hacc2 : ∀ x ∈ c :: acc, IsPathSeparator x = false := by
        intro x hx
        rcases List.mem_cons.mp hx with h | h
        · rw [h]; exact hs2
        · exact hacc x h
      by_cases hd : c = '.'
      · have : extScan (c :: r) acc = c :: acc := by
          simp only [extScan, hs2, hd, if_true]
          rfl
        rw [this]
        exact hacc2
      · have : extScan (c :: r) acc = extScan r (c :: acc) := by simp [extScan, hs, hd]
        rw [this]
        exact ih (c :: acc) hacc2

theorem Ext_no_separator (path : GoString) : ∀ c ∈ Ext path, IsPathSeparator c = false := by
  rw [Ext_eq_scan]
  exact extScan_no_separator _ [] (by simp)

theorem extLoop_drop (path : GoString) (n : Nat) :
    extLoop path n = [] ∨ ∃ i, i < n ∧ extLoop path n = path.drop i := by
  induction n with
  | zero => left; rfl
  | succ n ih =>
    unfold extLoop
    by_cases hs : IsPathSeparator (path.getD n ' ') = true
    · left; rw [if_pos hs]
    · rw [if_neg hs]
      by_cases hd : path.getD n ' ' = '.'
      · right; exact ⟨n, Nat.lt_succ_self n, by rw [if_pos hd]⟩
      · rw [if_neg hd]
        rcases ih with h | ⟨i, hi, h⟩
        · left; exact h
        · right; exact ⟨i, Nat.lt_succ_of_lt hi, h⟩

theorem take_append_Ext (path : GoString) :
    path.take (path.length - (Ext path).length) ++ Ext path = path := by
  rcases extLoop_drop path path.length with h | ⟨i, hi, h⟩
  · have h2 : Ext path = [] := h
    simp [h2]
  · have h2 : Ext path = path.drop i := h
    rw [h2, List.length_drop]
    have : path.length - (path.length - i) = i := by omega
    rw [this, List.take_append_drop]

theorem extScan_clean (g s acc : GoString)
    (hg : ∀ c ∈ g, IsPathSeparator c = false ∧ c ≠ '.') :
    extScan (g ++ '.' :: s) acc = '.' :: (g.reverse ++ acc) := by
  induction g generalizing acc with
  | nil => simp [extScan, IsPathSeparator]
  | cons c g ih =>
    have hc := hg c (List.mem_cons_self c g)
    have hg2 : ∀ x ∈ g, IsPathSeparator x = false ∧ x ≠ '.' :=
      fun x hx => hg x (List.mem_cons_of_mem c hx)
    simp [extScan, hc.1, hc.2, ih (c :: acc) hg2]

theorem Ext_append_dot (stem f : GoString)
    (hf : ∀ c ∈ f, IsPathSeparator c = false ∧ c ≠ '.') :
    Ext (stem ++ '.' :: f) = '.' :: f := by
  rw [Ext_eq_scan]
  have hrev : (stem ++ '.' :: f).reverse = f.reverse ++ '.' :: stem.reverse := by simp
  rw [hrev, extScan_clean _ _ _ (by simpa using hf)]
  simp

theorem ChangeExt_eq (path : GoString) (f : Format) (hf : f ≠ fmtUnknown) :
    ChangeExt path f = path.take (path.length - (Ext path).length) ++ '.' :: f := by
  simp [ChangeExt, hf]

theorem ChangeExt_eq_self_iff (path : GoString) (f : Format) :
    ChangeExt path f = path ↔ f = fmtUnknown ∨ Ext path = '.' :: f := by
  by_cases hf : f = fmtUnknown
  · simp [ChangeExt, hf]
  · rw [ChangeExt_eq path f hf]
    constructor
    · intro h
      right
      exact (List.append_cancel_left (h.trans (take_append_Ext path).symm)).symm
    · rintro (h | h)
      · exact absurd h hf
      · have h2 := take_append_Ext path
        rw [h] at h2
        rw [h]
        exact h2

theorem dropWhile_append_all (p : Char → Bool) (g r : GoString) (hg : ∀ c ∈ g, p c = true) :
    (g ++ r).dropWhile p = r.dropWhile p := by
  induction g with
  | nil => rfl
  | cons c g ih =>
    have hc := hg c (List.mem_cons_self c g)
    simp only [List.cons_append, List.dropWhile_cons, hc, if_true]
    exact ih (fun x hx => hg x (List.mem_cons_of_mem c hx))

theorem dirPart_append (a b : GoString) (hb : ∀ c ∈ b, IsPathSeparator c = false) :
    dirPart (a ++ b) = dirPart a := by
  unfold dirPart
  rw [List.reverse_append, dropWhile_append_all]
  intro c hc
  simp [hb c (List.mem_reverse.mp hc)]

theorem ToLower_eq_map (tbl : LowerTable) (s : GoString) :
    ToLower tbl s = s.map (runeToLower tbl) := by
  unfold ToLower
  split
  · rename_i h
    apply List.map_congr_left
    intro c hc
    have : c.toNat < 128 := by simpa using (List.all_eq_true.mp h) c hc
    simp [runeToLower, this]
  · rfl

theorem lower_literals (tbl : LowerTable) :
    (['.', 'j', 'p', 'g'] : GoString).map (runeToLower tbl) = ['.', 'j', 'p', 'g'] ∧
    (['.', 'j', 'p', 'e', 'g'] : GoString).map (runeToLower tbl) = ['.', 'j', 'p', 'e', 'g'] ∧
    (['.', 'p', 'n', 'g'] : GoString).map (runeToLower tbl) = ['.', 'p', 'n', 'g'] ∧
    (['.', 'g', 'i', 'f'] : GoString).map (runeToLower tbl) = ['.', 'g', 'i', 'f'] :=
  ⟨rfl, rfl, rfl, rfl⟩

theorem GetFormatFromExtention_eq (tbl : LowerTable) (path : GoString) :
    GetFormatFromExtention tbl path =
      if (extensionOf path).map (runeToLower tbl) = ['.', 'j', 'p', 'g'] ∨
          (extensionOf path).map (runeToLower tbl) = ['.', 'j', 'p', 'e', 'g'] then fmtJpeg
      else if (extensionOf path).map (runeToLower tbl) = ['.', 'p', 'n', 'g'] then fmtPng
      else if (extensionOf path).map (runeToLower tbl) = ['.', 'g', 'i', 'f'] then fmtGif
      else fmtUnknown := by
  simp only [GetFormatFromExtention, ToLower_eq_map, Ext_eq_extensionOf]

/-! ## The extension functions -/

/-- C4: `GetFormatFromExtention` depends only on the extension of the path (the
suffix starting at the last dot of the final path element), compared without
regard to letter case: the result is "jpeg" exactly for the extensions equal to
".jpg" or ".jpeg" up to case, "png" exactly for ".png", "gif" exactly for
".gif", and "unknown" for every other path, among them the paths with no
extension; "IMG.JPG", "img.jpg" and "img.JPEG" all give "jpeg". -/
theorem GetFormatFromExtention_case_insensitive (tbl : LowerTable) (path : GoString) :
    (GetFormatFromExtention tbl path = fmtJpeg ↔
      eqIgnoreCase tbl (extensionOf path) ['.', 'j', 'p', 'g'] ∨
        eqIgnoreCase tbl (extensionOf path) ['.', 'j', 'p', 'e', 'g']) ∧
    (GetFormatFromExtention tbl path = fmtPng ↔
      eqIgnoreCase tbl (extensionOf path) ['.', 'p', 'n', 'g']) ∧
    (GetFormatFromExtention tbl path = fmtGif ↔
      eqIgnoreCase tbl (extensionOf path) ['.', 'g', 'i', 'f']) ∧
    (GetFormatFromExtention tbl path = fmtUnknown ↔
      ¬ (eqIgnoreCase tbl (extensionOf path) ['.', 'j', 'p', 'g'] ∨
          eqIgnoreCase tbl (extensionOf path) ['.', 'j', 'p', 'e', 'g'] ∨
          eqIgnoreCase tbl (extensionOf path) ['.', 'p', 'n', 'g'] ∨
          eqIgnoreCase tbl (extensionOf path) ['.', 'g', 'i', 'f'])) ∧
    (extensionOf path = [] → GetFormatFromExtention tbl path = fmtUnknown) ∧
    (∀ q : GoString, eqIgnoreCase tbl (extensionOf q) (extensionOf path) →
      GetFormatFromExtention tbl q = GetFormatFromExtention tbl path) ∧
    GetFormatFromExtention tbl ['I', 'M', 'G', '.', 'J', 'P', 'G'] = fmtJpeg ∧
    GetFormatFromExtention tbl ['i', 'm', 'g', '.', 'j', 'p', 'g'] = fmtJpeg ∧
    GetFormatFromExtention tbl ['i', 'm', 'g', '.', 'J', 'P', 'E', 'G'] = fmtJpeg := by
  obtain ⟨h1, h2, h3, h4⟩ := lower_literals tbl
  have key := GetFormatFromExtention_eq tbl path
  refine ⟨?_, ?_, ?_, ?_, ?_, ?_, rfl, rfl, rfl⟩
  · rw [key]
    simp only [eqIgnoreCase, h1, h2]
    by_cases a : (extensionOf path).map (runeToLower tbl) = ['.', 'j', 'p', 'g'] ∨
        (extensionOf path).map (runeToLower tbl) = ['.', 'j', 'p', 'e', 'g']
    · simp [a]
    · simp only [a, if_false, iff_false]
      split
      · decide
      · split <;> decide
  · rw [key]
    simp only [eqIgnoreCase, h3]
    by_cases a : (extensionOf path).map (runeToLower tbl) = ['.', 'p', 'n', 'g']
    · simp [a]
    · simp only [a, if_false, iff_false]
      split
      · decide
      · split <;> decide
  · rw [key]
    simp only [eqIgnoreCase, h4]
    by_cases a : (extensionOf path).map (runeToLower tbl) = ['.', 'g', 'i', 'f']
    · simp [a]
    · simp only [a, if_false, iff_false]
      split
      · decide
      · split <;> decide
  · rw [key]
    simp only [eqIgnoreCase, h1, h2, h3, h4]
    split
    · rename_i a
      have : fmtJpeg ≠ fmtUnknown := by decide
      simp only [this, false_iff, not_not]
      rcases a with a | a
      · exact Or.inl a
      · exact Or.inr (Or.inl a)
    · rename_i a
      split
      · rename_i b
        have : fmtPng ≠ fmtUnknown := by decide
        simp only [this, false_iff, not_not]
        exact Or.inr (Or.inr (Or.inl b))
      · rename_i b
        split
        · rename_i c
          have : fmtGif ≠ fmtUnknown := by decide
          simp only [this, false_iff, not_not]
          exact Or.inr (Or.inr (Or.inr c))
        · rename_i c
          simp only [true_iff]
          rintro (x | x | x | x)
          · exact a (Or.inl x)
          · exact a (Or.inr x)
          · exact b x
          · exact c x
  · intro h
    rw [key, h]
    rfl
  · intro q hq
    rw [key, GetFormatFromExtention_eq tbl q]
    unfold eqIgnoreCase at hq
    rw [hq]

/-- C4, at a concrete input: "dir.d/Photo.JpEg" and "x.jpeg" have extensions
equal up to case, so they have the same format, and a path without a dot in its
final element is "unknown". -/
theorem GetFormatFromExtention_case_insensitive_witness :
    GetFormatFromExtention id "x.jpeg".toList =
        GetFormatFromExtention id "dir.d/Photo.JpEg".toList ∧
      GetFormatFromExtention id "dir.d/Photo".toList = fmtUnknown :=
  ⟨(GetFormatFromExtention_case_insensitive id "dir.d/Photo.JpEg".toList).2.2.2.2.2.1
      "x.jpeg".toList rfl,
    (GetFormatFromExtention_case_insensitive id "dir.d/Photo".toList).2.2.2.2.1 (by decide)⟩

/-- C5: for a format `f` other than "unknown", `ChangeExt path f` is the path
with its extension (the suffix starting at the last dot of the final path
element, empty if there is none) removed and "." followed by `f` appended; and
the directory part of the result is the directory part of `path` (a format
name holds no path separator: none of "jpeg", "png", "gif" does). -/
theorem ChangeExt_replaces_extension (path : GoString) (f : Format) (hf : f ≠ fmtUnknown) :
    withoutExtension path ++ extensionOf path = path ∧
    ChangeExt path f = withoutExtension path ++ '.' :: f ∧
    ((∀ c ∈ f, IsPathSeparator c = false) → dirPart (ChangeExt path f) = dirPart path) := by
  have hsplit : withoutExtension path ++ extensionOf path = path := by
    unfold withoutExtension
    rw [← Ext_eq_extensionOf]
    exact take_append_Ext path
  have hce : ChangeExt path f = withoutExtension path ++ '.' :: f := by
    rw [ChangeExt_eq path f hf]
    unfold withoutExtension
    rw [← Ext_eq_extensionOf]
  refine ⟨hsplit, hce, ?_⟩
  intro hsep
  have h1 : dirPart (withoutExtension path ++ '.' :: f) = dirPart (withoutExtension path) := by
    apply dirPart_append
    intro c hc
    rcases List.mem_cons.mp hc with h | h
    · rw [h]; rfl
    · exact hsep c h
  have h2 : dirPart (withoutExtension path ++ extensionOf path)
      = dirPart (withoutExtension path) := by
    apply dirPart_append
    rw [← Ext_eq_extensionOf]
    exact Ext_no_separator path
  rw [hce, h1, ← h2, hsplit]

/-- C5, at the input of the specification:
`ChangeExt("a/b.jpg", "png") = "a/b.png"`, with directory part "a/". -/
theorem ChangeExt_replaces_extension_witness :
    ChangeExt "a/b.jpg".toList fmtPng = "a/b.png".toList ∧
      dirPart (ChangeExt "a/b.jpg".toList fmtPng) = "a/".toList := by
  have h := ChangeExt_replaces_extension "a/b.jpg".toList fmtPng (by decide)
  exact ⟨h.2.1.trans (by decide), (h.2.2 (by decide)).trans (by decide)⟩

/-- C6: `ChangeExt path "unknown" = path` for every path. -/
theorem ChangeExt_unknown (path : GoString) : ChangeExt path fmtUnknown = path := by
  simp [ChangeExt]

/-- C10: for every path and every `f` among "jpeg", "png" and "gif", the name
`ChangeExt path f` is recognised as of format `f`, and applying `ChangeExt`
with `f` a second time changes nothing. -/
theorem ChangeExt_round_trip (tbl : LowerTable) (path : GoString) (f : Format)
    (hf : f ∈ [fmtJpeg, fmtPng, fmtGif]) :
    GetFormatFromExtention tbl (ChangeExt path f) = f ∧
      ChangeExt (ChangeExt path f) f = ChangeExt path f := by
  have hne : f ≠ fmtUnknown := by
    intro h
    rw [h] at hf
    revert hf
    decide
  have hclean : ∀ c ∈ f, IsPathSeparator c = false ∧ c ≠ '.' := by
    simp only [List.mem_cons, List.mem_singleton, List.not_mem_nil, or_false] at hf
    rcases hf with h | h | h <;> subst h <;> decide
  have hext : Ext (ChangeExt path f) = '.' :: f := by
    rw [ChangeExt_eq path f hne]
    exact Ext_append_dot _ f hclean
  constructor
  · simp only [GetFormatFromExtention, hext]
    simp only [List.mem_cons, List.mem_singleton, List.not_mem_nil, or_false] at hf
    rcases hf with h | h | h <;> subst h <;> rfl
  · exact (ChangeExt_eq_self_iff _ f).mpr (Or.inr hext)

/-- C10, at a concrete input: "a.b/Photo.JPG" converted to "gif". -/
theorem ChangeExt_round_trip_witness :
    GetFormatFromExtention id (ChangeExt "a.b/Photo.JPG".toList fmtGif) = fmtGif ∧
      ChangeExt (ChangeExt "a.b/Photo.JPG".toList fmtGif) fmtGif
        = ChangeExt "a.b/Photo.JPG".toList fmtGif :=
  ChangeExt_round_trip id "a.b/Photo.JPG".toList fmtGif (by decide)

/-! ## Lemmas on the walk function -/

theorem lookup_filter_ne (fs : List (GoString × Bytes)) (p q : GoString) (h : q ≠ p) :
    (fs.filter (fun e => e.1 != p)).lookup q = fs.lookup q := by
  induction fs with
  | nil => rfl
  | cons e fs ih =>
    obtain ⟨k, b⟩ := e
    by_cases hk : k = p
    · subst hk
      have hqk : (q == k) = false := by simpa using h
      simp [List.filter_cons, List.lookup_cons, hqk, ih]
    · have hkp : (k != p) = true := by simpa using hk
      simp only [List.filter_cons, hkp, if_true, List.lookup_cons, ih]

theorem resolve_write (fs : Files) (p q : GoString) (b : Bytes) :
    (fs.write p b).resolve q = fs.resolve q := rfl

theorem read_write_ne (fs : Files) (p q : GoString) (b : Bytes)
    (h : fs.resolve q ≠ fs.resolve p) :
    (fs.write p b).read q = fs.read q := by
  have hqp : (fs.resolve q == fs.resolve p) = false := by simpa using h
  simp only [Files.read, resolve_write]
  simp only [Files.write, List.lookup_cons, hqp]
  exact lookup_filter_ne fs.content (fs.resolve p) (fs.resolve q) h

theorem read_write_same (fs : Files) (p q : GoString) (b : Bytes)
    (h : fs.resolve q = fs.resolve p) :
    (fs.write p b).read q = some b := by
  simp only [Files.read, resolve_write]
  simp [Files.write, List.lookup_cons, h]

theorem resolve_no_links (fs : Files) (q : GoString) (h : fs.links = []) :
    fs.resolve q = q := by
  simp [Files.resolve, h]

section StepLemmas

variable {Image : Type}

theorem osOpen_ok (env : Env Image) (w : World) (path : GoString) (content : Bytes)
    (he : env.openErr path = none) (hr : w.files.read path = some content) :
    osOpen env w path = (.ok content, w.log (.openSrc path)) := by
  simp [osOpen, he, hr]

theorem osOpen_files (env : Env Image) (w : World) (path : GoString) :
    (osOpen env w path).2.files = w.files := by
  unfold osOpen
  split
  · rfl
  · split <;> rfl

theorem osCreate_links (env : Env Image) (w : World) (p : GoString) :
    (osCreate env w p).2.files.links = w.files.links := by
  unfold osCreate
  split <;> rfl

theorem osCreate_read (env : Env Image) (w : World) (p q : GoString)
    (h : w.files.resolve q ≠ w.files.resolve p) :
    (osCreate env w p).2.files.read q = w.files.read q := by
  unfold osCreate
  split
  · rfl
  · exact read_write_ne _ _ _ _ h

theorem Encode_read (env : Env Image) (w : World) (p q : GoString) (img : Image) (f : Format)
    (h : w.files.resolve q ≠ w.files.resolve p) :
    (Encode env w p img f).2.files.read q = w.files.read q := by
  unfold Encode writeOut
  split
  · exact read_write_ne _ _ _ _ h
  · split
    · exact read_write_ne _ _ _ _ h
    · split
      · exact read_write_ne _ _ _ _ h
      · rfl

theorem Encode_trace (env : Env Image) (w : World) (p : GoString) (img : Image) (f : Format) :
    (Encode env w p img f).2.trace = w.trace ∨
      ∃ b, (Encode env w p img f).2.trace = w.trace ++ [.writeDst p b] := by
  unfold Encode writeOut
  split
  · exact Or.inr ⟨_, rfl⟩
  · split
    · exact Or.inr ⟨_, rfl⟩
    · split
      · exact Or.inr ⟨_, rfl⟩
      · exact Or.inl rfl

theorem deferCloseDst_eq (env : Env Image) (d : GoString) (r : Option Err × World) :
    deferCloseDst env d r =
      ((match r.1 with | some e => some e | none => env.closeErr d), r.2.log (.closeDst d)) := by
  rcases r with ⟨e, w⟩
  cases e with
  | none =>
    cases h : env.closeErr d <;> simp [deferCloseDst, h]
  | some e => simp [deferCloseDst]

theorem match_pair_id (x : Option Err × World) :
    (match x with
      | (some err, w) => (some err, w)
      | (none, w) => (none, w)) = x := by
  rcases x with ⟨e, w⟩
  cases e <;> rfl

/-- The step for an entry that is selected, opens and decodes to the source
format: the destination is created, and when that succeeds the image is
encoded, the destination closed and then the source closed. -/
theorem walkdirfunc_selected (env : Env Image) (src dst : Format) (v : Visit) (w : World)
    (content : Bytes) (img : Image)
    (hv : v.err = none) (hd : v.isDir = false)
    (hsel : GetFormatFromExtention env.lowerTable v.path = src)
    (he : env.openErr v.path = none) (hr : w.files.read v.path = some content)
    (hdec : Decode env content = .ok (img, src)) :
    walkdirfunc env src dst v w =
      deferCloseSrc v.path
        (match osCreate env (w.log (.openSrc v.path)) (ChangeExt v.path dst) with
          | (some err, w) => (some err, w)
          | (none, w) =>
            deferCloseDst env (ChangeExt v.path dst)
              (Encode env w (ChangeExt v.path dst) img dst)) := by
  simp only [walkdirfunc, hv, hd, hsel, osOpen_ok env w v.path content he hr, hdec,
    match_pair_id]
  simp

theorem walkdirfunc_frame (env : Env Image) (src dst : Format) (v : Visit) (w : World)
    (q : GoString) (hq : w.files.resolve q ≠ w.files.resolve (ChangeExt v.path dst)) :
    (walkdirfunc env src dst v w).2.files.read q = w.files.read q := by
  cases hv : v.err with
  | some e => simp [walkdirfunc, hv]
  | none =>
    by_cases hd : v.isDir = true
    · simp [walkdirfunc, hv, hd]
    · by_cases hsel : GetFormatFromExtention env.lowerTable v.path = src
      · have hopen := osOpen_files env w v.path
        rcases hop : osOpen env w v.path with ⟨r, w1⟩
        rw [hop] at hopen
        have hfiles : w1.files = w.files := hopen
        have hw1 : w1.files.read q = w.files.read q :=
          congrArg (fun fs => Files.read fs q) hopen
        have hq1 : w1.files.resolve q ≠ w1.files.resolve (ChangeExt v.path dst) := by
          rw [hfiles]
          exact hq
        cases r with
        | error e => simpa [walkdirfunc, hv, hd, hsel, hop] using hw1
        | ok sf =>
          cases hdec : Decode env sf with
          | error e => simpa [walkdirfunc, hv, hd, hsel, hop, hdec, deferCloseSrc, World.log] using hw1
          | ok r2 =>
            obtain ⟨img, format⟩ := r2
            by_cases hfmt : format = src
            · have hcr := osCreate_read env w1 (ChangeExt v.path dst) q hq1
              have hlinks := osCreate_links env w1 (ChangeExt v.path dst)
              rcases hc : osCreate env w1 (ChangeExt v.path dst) with ⟨ce, w2⟩
              rw [hc] at hcr hlinks
              have hq2 : w2.files.resolve q ≠ w2.files.resolve (ChangeExt v.path dst) := by
                have hl : w2.files.links = w1.files.links := hlinks
                simp only [Files.resolve, hl]
                exact hq1
              cases ce with
              | some e =>
                simpa [walkdirfunc, hv, hd, hsel, hop, hdec, hfmt, hc, deferCloseSrc, World.log]
                  using hcr.trans hw1
              | none =>
                have hen := Encode_read env w2 (ChangeExt v.path dst) q img dst hq2
                simpa [walkdirfunc, hv, hd, hsel, hop, hdec, hfmt, hc, deferCloseSrc, World.log,
                  match_pair_id, deferCloseDst_eq] using hen.trans (hcr.trans hw1)
            · simpa [walkdirfunc, hv, hd, hsel, hop, hdec, hfmt, deferCloseSrc, World.log]
                using hw1
      · simp [walkdirfunc, hv, hd, hsel]

end StepLemmas

/-! ## The conversion step -/

section Conversion

variable {Image : Type}

/-- C7 as stated fails: with source and destination format both "png" the file
"a.png" is selected, the destination path is "a.png" itself, and the step
replaces the content `[2]` of the file it read by the encoder output `[2, 2]`. -/
theorem conversion_overwrites_source_when_formats_agree :
    GetFormatFromExtention exampleEnv.lowerTable "a.png".toList = fmtPng ∧
      ChangeExt "a.png".toList fmtPng = "a.png".toList ∧
      Files.read ⟨[], [("a.png".toList, [2])]⟩ "a.png".toList = some [2] ∧
      (walkdirfunc exampleEnv fmtPng fmtPng ⟨"a.png".toList, false, none⟩
          ⟨⟨[], [("a.png".toList, [2])]⟩, []⟩).2.files.read "a.png".toList = some [2, 2] := by
  decide

/-- C7, amended: for every source format, every destination format `dst`
other than "unknown" and every path whose extension is not exactly "." followed
by `dst`, the destination path `ChangeExt path dst` differs from `path`; and
when the destination name does not denote the file that `path` denotes (no
link makes the two names one file; so in particular when there are no links
at all), the step of `ChangeFormat` for that path leaves the content of the
source file as it was. -/
theorem conversion_keeps_source (env : Env Image) (src dst : Format) (v : Visit) (w : World)
    (hdst : dst ≠ fmtUnknown) (hext : extensionOf v.path ≠ '.' :: dst) :
    ChangeExt v.path dst ≠ v.path ∧
      (w.files.resolve (ChangeExt v.path dst) ≠ w.files.resolve v.path →
        (walkdirfunc env src dst v w).2.files.read v.path = w.files.read v.path) ∧
      (w.files.links = [] →
        (walkdirfunc env src dst v w).2.files.read v.path = w.files.read v.path) := by
  have hne : ChangeExt v.path dst ≠ v.path := by
    intro h
    rcases (ChangeExt_eq_self_iff v.path dst).mp h with h1 | h1
    · exact hdst h1
    · exact hext ((Ext_eq_extensionOf v.path).symm.trans h1)
  refine ⟨hne, ?_, ?_⟩
  · intro hfile
    exact walkdirfunc_frame env src dst v w v.path (fun h => hfile h.symm)
  · intro hlinks
    apply walkdirfunc_frame env src dst v w v.path
    rw [resolve_no_links _ _ hlinks, resolve_no_links _ _ hlinks]
    exact fun h => hne h.symm

/-- C7 amended, at a concrete input: "x.jpg" holding a JPEG image, converted
to "png", with no links: the destination is "x.png", and "x.jpg" still holds
`[1]`. -/
theorem conversion_keeps_source_witness :
    ChangeExt "x.jpg".toList fmtPng ≠ "x.jpg".toList ∧
      (walkdirfunc exampleEnv fmtJpeg fmtPng ⟨"x.jpg".toList, false, none⟩
          ⟨⟨[], [("x.jpg".toList, [1])]⟩, []⟩).2.files.read "x.jpg".toList = some [1] :=
  have h := conversion_keeps_source exampleEnv fmtJpeg fmtPng ⟨"x.jpg".toList, false, none⟩
    ⟨⟨[], [("x.jpg".toList, [1])]⟩, []⟩ (by decide) (by decide)
  ⟨h.1, h.2.1 (by decide)⟩

/-- Two names for one file: when "x.png" is a link to the file of "x.jpg", the
step for "x.jpg" with destination format "png" writes the encoder output
`[2, 2]` into the file it read, although the two paths differ. -/
theorem linked_destination_overwrites_source :
    ChangeExt "x.jpg".toList fmtPng ≠ "x.jpg".toList ∧
      Files.read ⟨[("x.png".toList, "x.jpg".toList)], [("x.jpg".toList, [1])]⟩ "x.jpg".toList
        = some [1] ∧
      (walkdirfunc exampleEnv fmtJpeg fmtPng ⟨"x.jpg".toList, false, none⟩
          ⟨⟨[("x.png".toList, "x.jpg".toList)], [("x.jpg".toList, [1])]⟩, []⟩).2.files.read
        "x.jpg".toList = some [2, 2] := by
  decide

/-- C8: a file whose name selects it (its extension gives the source format)
and whose content `Decode` decodes without error to another format is skipped:
the step returns no error, creates and writes nothing (the source is opened
and closed, the files are as before), and the walk goes on with the entries
that follow. -/
theorem mismatch_is_skipped (env : Env Image) (src dst : Format) (v : Visit) (vs : List Visit)
    (w : World) (content : Bytes) (img : Image) (format : Format)
    (hv : v.err = none) (hd : v.isDir = false)
    (hsel : GetFormatFromExtention env.lowerTable v.path = src)
    (he : env.openErr v.path = none) (hr : w.files.read v.path = some content)
    (hdec : Decode env content = .ok (img, format)) (hne : format ≠ src) :
    walkdirfunc env src dst v w
        = (none, ⟨w.files, w.trace ++ [.openSrc v.path, .closeSrc v.path]⟩) ∧
      walkDir (walkdirfunc env src dst) (v :: vs) w
        = walkDir (walkdirfunc env src dst) vs
            ⟨w.files, w.trace ++ [.openSrc v.path, .closeSrc v.path]⟩ := by
  have hstep : walkdirfunc env src dst v w
      = (none, ⟨w.files, w.trace ++ [.openSrc v.path, .closeSrc v.path]⟩) := by
    simp [walkdirfunc, hv, hd, hsel, osOpen_ok env w v.path content he hr, hdec, hne,
      deferCloseSrc, World.log]
  refine ⟨hstep, ?_⟩
  simp only [walkDir, hstep]

/-- C8, at the input of the specification: "fake.jpg" holding PNG bytes, with
source format "jpeg"; the walk goes on with the entry "x.jpg" that follows. -/
theorem mismatch_is_skipped_witness :
    walkdirfunc exampleEnv fmtJpeg fmtPng ⟨"fake.jpg".toList, false, none⟩
          ⟨⟨[], [("fake.jpg".toList, [2]), ("x.jpg".toList, [1])]⟩, []⟩
        = (none, ⟨⟨[], [("fake.jpg".toList, [2]), ("x.jpg".toList, [1])]⟩,
            [] ++ [.openSrc "fake.jpg".toList, .closeSrc "fake.jpg".toList]⟩) ∧
      walkDir (walkdirfunc exampleEnv fmtJpeg fmtPng)
          (⟨"fake.jpg".toList, false, none⟩ :: [⟨"x.jpg".toList, false, none⟩])
          ⟨⟨[], [("fake.jpg".toList, [2]), ("x.jpg".toList, [1])]⟩, []⟩
        = walkDir (walkdirfunc exampleEnv fmtJpeg fmtPng) [⟨"x.jpg".toList, false, none⟩]
            ⟨⟨[], [("fake.jpg".toList, [2]), ("x.jpg".toList, [1])]⟩,
              [] ++ [.openSrc "fake.jpg".toList, .closeSrc "fake.jpg".toList]⟩ :=
  mismatch_is_skipped exampleEnv fmtJpeg fmtPng ⟨"fake.jpg".toList, false, none⟩
    [⟨"x.jpg".toList, false, none⟩] ⟨⟨[], [("fake.jpg".toList, [2]), ("x.jpg".toList, [1])]⟩, []⟩
    [2] 0 fmtPng rfl rfl (by decide) rfl (by decide) rfl (by decide)

/-- C9: when the destination file has been created, the step closes it exactly
once whatever the encoder returns, and the error the step reports is the
encode error when encoding failed (also when closing fails too), otherwise the
close error when closing failed, otherwise none. -/
theorem destination_closed_once (env : Env Image) (src dst : Format) (v : Visit) (w : World)
    (content : Bytes) (img : Image)
    (hv : v.err = none) (hd : v.isDir = false)
    (hsel : GetFormatFromExtention env.lowerTable v.path = src)
    (he : env.openErr v.path = none) (hr : w.files.read v.path = some content)
    (hdec : Decode env content = .ok (img, src))
    (hcreate : env.createErr (ChangeExt v.path dst) = none) :
    (walkdirfunc env src dst v w).1
        = (match (Encode env w (ChangeExt v.path dst) img dst).1 with
            | some encodeErr => some encodeErr
            | none => env.closeErr (ChangeExt v.path dst)) ∧
      (walkdirfunc env src dst v w).2.trace.count (.closeDst (ChangeExt v.path dst))
        = w.trace.count (.closeDst (ChangeExt v.path dst)) + 1 ∧
      (∃ evs, (walkdirfunc env src dst v w).2.trace
        = w.trace ++ [.openSrc v.path, .createDst (ChangeExt v.path dst)] ++ evs
            ++ [.closeDst (ChangeExt v.path dst), .closeSrc v.path] ∧
          ∀ e ∈ evs, ∃ b, e = .writeDst (ChangeExt v.path dst) b) := by
  have hstep := walkdirfunc_selected env src dst v w content img hv hd hsel he hr hdec
  have hc : osCreate env (w.log (.openSrc v.path)) (ChangeExt v.path dst)
      = (none, ⟨w.files.write (ChangeExt v.path dst) [],
          w.trace ++ [.openSrc v.path] ++ [.createDst (ChangeExt v.path dst)]⟩) := by
    simp [osCreate, hcreate, World.log]
  rw [hc] at hstep
  simp only [deferCloseDst_eq, deferCloseSrc, World.log] at hstep
  have herr : ∀ w1 w2 : World, (Encode env w1 (ChangeExt v.path dst) img dst).1
      = (Encode env w2 (ChangeExt v.path dst) img dst).1 := by
    intro w1 w2
    unfold Encode writeOut
    split
    · rfl
    · split
      · rfl
      · split <;> rfl
  have htr := Encode_trace env ⟨w.files.write (ChangeExt v.path dst) [],
    w.trace ++ [.openSrc v.path] ++ [.createDst (ChangeExt v.path dst)]⟩
    (ChangeExt v.path dst) img dst
  rw [hstep]
  refine ⟨?_, ?_, ?_⟩
  · simp only []
    rw [herr _ w]
  · rcases htr with h | ⟨b, h⟩
    · simp only []
      rw [h]
      simp [List.count_append, List.count_cons, List.count_nil]
    · simp only []
      rw [h]
      simp [List.count_append, List.count_cons, List.count_nil]
  · rcases htr with h | ⟨b, h⟩
    · refine ⟨[], ?_, by simp⟩
      simp only []
      rw [h]
      simp
    · refine ⟨[.writeDst (ChangeExt v.path dst) b], ?_, by simp⟩
      simp only []
      rw [h]
      simp

/-- C9, at a concrete input: "x.jpg" converted to "png" on a machine where
both the encoder (error 7) and the close (error 9) fail: the step reports the
encode error, and "x.png" is closed once. -/
theorem destination_closed_once_witness :
    (walkdirfunc failingEnv fmtJpeg fmtPng ⟨"x.jpg".toList, false, none⟩
        ⟨⟨[], [("x.jpg".toList, [1])]⟩, []⟩).1 = some (.other 7) ∧
      (walkdirfunc failingEnv fmtJpeg fmtPng ⟨"x.jpg".toList, false, none⟩
        ⟨⟨[], [("x.jpg".toList, [1])]⟩, []⟩).2.trace.count (.closeDst "x.png".toList) = 1 := by
  have h := destination_closed_once failingEnv fmtJpeg fmtPng ⟨"x.jpg".toList, false, none⟩
    ⟨⟨[], [("x.jpg".toList, [1])]⟩, []⟩ [1] 0 rfl rfl (by decide) rfl (by decide) rfl rfl
  exact ⟨h.1.trans (by decide), h.2.1.trans (by decide)⟩

end Conversion

/-! ## The command -/

section Command

variable {Image : Type}

/-- What `Run` does with the argument count: when the flags parse, it returns
`ExitCodeTooManyArgs` exactly when more than 2 arguments of any kind follow the
program name. -/
theorem Run_too_many_iff (env : Env Image) (prog : GoString)
    (rest positional : List GoString) (fl : Flags) (w : World)
    (hparse : Parse Flags.defaults rest = .ok (fl, positional)) :
    (Run env (prog :: rest) w).map RunResult.code = some ExitCodeTooManyArgs ↔
      2 < rest.length := by
  have hcodes : ExitCodeOK ≠ ExitCodeTooManyArgs ∧ ExitCodeFailedToGetCd ≠ ExitCodeTooManyArgs ∧
      ExitCodeFailedToExec ≠ ExitCodeTooManyArgs := by decide
  by_cases hlen : (prog :: rest).length > 3
  · have h2 : 2 < rest.length := by
      simp only [List.length_cons] at hlen
      omega
    simp only [Run, hparse, hlen, if_true, h2, iff_true]
    rfl
  · have h2 : ¬ 2 < rest.length := by
      simp only [List.length_cons] at hlen
      omega
    simp only [Run, hparse, hlen, if_false, h2, iff_false]
    split
    · simp [hcodes.1]
    · split
      · simp [hcodes.2.1]
      · split
        · simp [hcodes.2.2]
        · simp [hcodes.1]

/-- C1 on the code: the constants of the declaration are 0, 12, 13, 14, 15 and
16, not 0, 10, 11, 12, 13 and 14: `iota` is 2 in the ConstSpec of
`ExitCodeParseFlagError`, the third of the declaration.  A run whose flags do
not parse returns 12. -/
theorem exit_code_values (env : Env Image) (w : World) :
    ExitCodeOK = 0 ∧ ExitCodeParseFlagError = 12 ∧ ExitCodeTooManyArgs = 13 ∧
      ExitCodeInvalidExtensionError = 14 ∧ ExitCodeFailedToGetCd = 15 ∧
      ExitCodeFailedToExec = 16 ∧
      (Run env ["chfmt".toList, "-nosuchflag".toList] w).map RunResult.code = some 12 :=
  ⟨rfl, rfl, rfl, rfl, rfl, rfl, rfl⟩

/-- C2 on the code: `chfmt --src jpeg --dst png` parses, leaves no positional
argument, and is rejected with `ExitCodeTooManyArgs` and the message
"Error: Too many arguments": the guard counts the elements of `args`, flags
and their values included.  The arguments of the test, `chfmt a1 a2 a3`, are
rejected too. -/
theorem flags_count_as_arguments (env : Env Image) (w : World) :
    Parse Flags.defaults ["--src".toList, "jpeg".toList, "--dst".toList, "png".toList]
        = .ok (⟨false, fmtJpeg, fmtPng⟩, []) ∧
      Run env ["chfmt".toList, "--src".toList, "jpeg".toList, "--dst".toList, "png".toList] w
        = some ⟨ExitCodeTooManyArgs, [], "Error: Too many arguments\n".toList, none, w⟩ ∧
      Run env ["chfmt".toList, "a1".toList, "a2".toList, "a3".toList] w
        = some ⟨ExitCodeTooManyArgs, [], "Error: Too many arguments\n".toList, none, w⟩ :=
  ⟨rfl, rfl, rfl⟩

/-- C3 as stated fails: in `chfmt -version a b c` the flags parse and the
version flag is set, yet `Run` returns `ExitCodeTooManyArgs`, which is not
`ExitCodeOK`, and prints nothing to `OutStream`. -/
theorem version_flag_after_argument_count :
    Parse Flags.defaults ["-version".toList, "a".toList, "b".toList, "c".toList]
        = .ok (⟨true, fmtJpeg, fmtPng⟩, ["a".toList, "b".toList, "c".toList]) ∧
      Run exampleEnv ["chfmt".toList, "-version".toList, "a".toList, "b".toList, "c".toList]
          ⟨⟨[], []⟩, []⟩
        = some ⟨ExitCodeTooManyArgs, [], "Error: Too many arguments\n".toList, none, ⟨⟨[], []⟩, []⟩⟩ ∧
      ExitCodeTooManyArgs ≠ ExitCodeOK :=
  ⟨rfl, rfl, by decide⟩

/-- C3, amended: for every argument list of at most 3 elements (program name
included) whose flags parse and in which the version flag is set, `Run` prints
"chfmt version v0.0.1" and a newline to `OutStream`, nothing to `ErrStream`,
returns `ExitCodeOK`, and does not call `ChangeFormat`: the files and the log
of what was done are as before. -/
theorem version_flag_prints_version (env : Env Image) (prog : GoString)
    (rest positional : List GoString) (fl : Flags) (w : World)
    (hparse : Parse Flags.defaults rest = .ok (fl, positional))
    (hver : fl.version = true) (hlen : (prog :: rest).length ≤ 3) :
    Run env (prog :: rest) w
      = some ⟨ExitCodeOK, "chfmt version v0.0.1\n".toList, [], none, w⟩ := by
  have hnot : ¬ ((prog :: rest).length > 3) := by omega
  simp only [Run, hparse, hnot, hver, if_true, if_false]
  rfl

/-- C3 amended, at the input of the test: `chfmt -version`. -/
theorem version_flag_prints_version_witness :
    Run exampleEnv ["chfmt".toList, "-version".toList] ⟨⟨[], [("x.jpg".toList, [1])]⟩, []⟩
      = some ⟨ExitCodeOK, "chfmt version v0.0.1\n".toList, [], none,
          ⟨⟨[], [("x.jpg".toList, [1])]⟩, []⟩⟩ :=
  version_flag_prints_version exampleEnv "chfmt".toList ["-version".toList] []
    ⟨true, fmtJpeg, fmtPng⟩ ⟨⟨[], [("x.jpg".toList, [1])]⟩, []⟩ rfl rfl (by decide)

end Command

end Chfmt
